import Mathlib

/-!
Shallow embedding of the interpolation core of `based_utils.calx`
(`src/based_utils/calx/interpol.py` and `src/based_utils/calx/utils.py`).

Python floats are modelled by exact rationals (`ℚ`); the float modulo
operator `%` (which for a positive right operand returns a value in
`[0, period)`) is modelled by `pymod`, the floor-based remainder.
-/

namespace Calx

/-- Python's float modulo `x % p`: `x - p * floor (x / p)`.  For `p > 0` the
result lies in `[0, p)`, matching CPython's float `%` semantics. -/
def pymod (x p : ℚ) : ℚ := x - p * ⌊x / p⌋

/-- `trim(n, lower=0, upper=1)` from interpol.py: `min(max(lower, n), upper)`. -/
def trim (n : ℚ) (lower : ℚ := 0) (upper : ℚ := 1) : ℚ :=
  min (max lower n) upper

/-- `InterpolationBounds.__init__(begin=0, end=1)`: stores `_begin` and `_end`. -/
structure InterpolationBounds where
  _begin : ℚ := 0
  _end : ℚ := 1

namespace InterpolationBounds

/-- The cached property `_span = _end - _begin`. -/
def _span (b : InterpolationBounds) : ℚ := b._end - b._begin

/-- `interpolate(f) = _begin + _span * f`. -/
def interpolate (b : InterpolationBounds) (f : ℚ) : ℚ :=
  b._begin + b._span * f

/-- `inverse_interpolate(n, inside=True)`: `(n - _begin) / _span`, returning
`0.0` when the division raises `ZeroDivisionError` (`_span == 0`); otherwise
the fraction, clamped into `[0, 1]` by `trim` when `inside` is true. -/
def inverse_interpolate (b : InterpolationBounds) (n : ℚ)
    (inside : Bool := true) : ℚ :=
  if b._span = 0 then 0
  else
    let f := (n - b._begin) / b._span
    if inside then trim f 0 1 else f

end InterpolationBounds

/-- Modelled from the spec: `FULL_CIRCLE` is imported from
`based_utils.calx.constants`, a file absent from the sources; the spec fixes
the angle convention to degrees with a full revolution of 360
("With a full-circle period of 360 degrees ..."). -/
def FULL_CIRCLE : ℚ := 360

/-- `CyclicInterpolationBounds`: the `_begin`/`_end` fields installed by
`super().__init__` together with the stored `_period`. -/
structure CyclicInterpolationBounds where
  toBounds : InterpolationBounds
  _period : ℚ

namespace CyclicInterpolationBounds

/-- `CyclicInterpolationBounds.__init__(begin=0, end=None, period=None)`:
defaults `end` and `period` to `FULL_CIRCLE`, reduces `begin` and `end`
modulo `period`, then phase-shifts `begin` by one whole period when
`abs(end - begin) > period / 2`, and delegates to the linear constructor. -/
def make (begin_raw : ℚ := 0) (end_raw : Option ℚ := none)
    (period_raw : Option ℚ := none) : CyclicInterpolationBounds :=
  let end0 := end_raw.getD FULL_CIRCLE
  let period := period_raw.getD FULL_CIRCLE
  let begin1 := pymod begin_raw period
  let end1 := pymod end0 period
  let begin2 :=
    if |end1 - begin1| > period / 2 then
      if begin1 < end1 then begin1 + period else begin1 - period
    else begin1
  ⟨⟨begin2, end1⟩, period⟩

/-- `CyclicInterpolationBounds.interpolate(f)`: the linear interpolation
reduced modulo `_period`. -/
def interpolate (b : CyclicInterpolationBounds) (f : ℚ) : ℚ :=
  pymod (b.toBounds.interpolate f) b._period

/-- `CyclicInterpolationBounds.inverse_interpolate(n, inside=True)`: reduces
`n` modulo `_period`, then delegates to the linear inverse. -/
def inverse_interpolate (b : CyclicInterpolationBounds) (n : ℚ)
    (inside : Bool := true) : ℚ :=
  b.toBounds.inverse_interpolate (pymod n b._period) inside

end CyclicInterpolationBounds

/-- Free function `interpolate(f, *, begin=0, end=1)`. -/
def interpolate (f : ℚ) (begin_ : ℚ := 0) (end_ : ℚ := 1) : ℚ :=
  (InterpolationBounds.mk begin_ end_).interpolate f

/-- Free function `inverse_interpolate(n, *, begin=0, end=1, inside=True)`. -/
def inverse_interpolate (n : ℚ) (begin_ : ℚ := 0) (end_ : ℚ := 1)
    (inside : Bool := true) : ℚ :=
  (InterpolationBounds.mk begin_ end_).inverse_interpolate n inside

/-- Free function `interpolate_angle(f, *, angle_1=0, angle_2=None)`: builds
`CyclicInterpolationBounds(angle_1, angle_2, FULL_CIRCLE)` and interpolates. -/
def interpolate_angle (f : ℚ) (angle_1 : ℚ := 0)
    (angle_2 : Option ℚ := none) : ℚ :=
  (CyclicInterpolationBounds.make angle_1 angle_2 (some FULL_CIRCLE)).interpolate f

/-- Free function
`inverse_interpolate_angle(n, *, angle_1=0, angle_2=None, inside=True)`. -/
def inverse_interpolate_angle (n : ℚ) (angle_1 : ℚ := 0)
    (angle_2 : Option ℚ := none) (inside : Bool := true) : ℚ :=
  (CyclicInterpolationBounds.make angle_1 angle_2
    (some FULL_CIRCLE)).inverse_interpolate n inside

/-- The real part of `cmath.sqrt(d)` for a real argument `d`: zero when
`d < 0` (the complex square root of a negative real is purely imaginary),
and the square root of `d` otherwise, modelled over `ℚ` by `Rat.sqrt`
(exact whenever `d` is a perfect rational square, as in every use below). -/
def cmathSqrtReal (d : ℚ) : ℚ := if d < 0 then 0 else Rat.sqrt d

/-- `solve_quadratic(a, b, c)` from utils.py: `r` is the real part of the
complex square root of the discriminant, the two candidates
`(-b ± r) / (2a)` are sorted into `(left, right)`.  When `a == 0` the float
division by `2 * a == 0.0` raises `ZeroDivisionError`, modelled by `none`. -/
def solve_quadratic (a b c : ℚ) : Option (ℚ × ℚ) :=
  if a = 0 then none
  else
    let r := cmathSqrtReal (b ^ 2 - 4 * a * c)
    let rootNeg := (-b + r * (-1)) / (2 * a)
    let rootPos := (-b + r * 1) / (2 * a)
    some (min rootNeg rootPos, max rootNeg rootPos)

/-- `mods(x, y, shift=0)` from utils.py: `(x - shift) % y + shift`, with
Python's `%` on integers being floor-division remainder (`Int.fmod`). -/
def mods (x y : ℤ) (shift : ℤ := 0) : ℤ :=
  Int.fmod (x - shift) y + shift

/-- `compare(v1, v2)` from utils.py: `(v1 < v2) - (v1 > v2)`, with the
booleans coerced to 0/1 as Python does. -/
def compare (v1 v2 : ℤ) : ℤ :=
  (if v1 < v2 then 1 else 0) - (if v1 > v2 then 1 else 0)

/-- `math.isclose(a, b)` with the default tolerances
`rel_tol=1e-09, abs_tol=0.0`:
`abs(a-b) <= max(rel_tol * max(abs(a), abs(b)), abs_tol)`. -/
def isclose (a b : ℚ) : Prop :=
  |a - b| ≤ max (1 / 10 ^ 9 * max |a| |b|) 0

instance (a b : ℚ) : Decidable (isclose a b) := by
  unfold isclose
  infer_instance

/-- Python's `x or d` used by `frange` for argument resolution: `d` when `x`
is falsy (absent, i.e. `None`, or equal to `0`), else `x`. -/
def pyOr (x : Option ℚ) (d : ℚ) : ℚ :=
  match x with
  | none => d
  | some v => if v = 0 then d else v

/-- The start/end resolution of `frange`: with `end` omitted the range runs
from `0` to `start_or_end or 1`; with `end` given it runs from
`start_or_end or 0` to `end`. -/
def frangeResolve (start_or_end end_ : Option ℚ) : ℚ × ℚ :=
  match end_ with
  | none => (0, pyOr start_or_end 1)
  | some e => (pyOr start_or_end 0, e)

/-- The `while n < e and not isclose(n, e): yield n; n += step` loop of
`frange`, with explicit fuel: `none` means the fuel ran out before the loop
condition became false (so the Python generator has not yet terminated). -/
def frangeLoop (step e : ℚ) : ℕ → ℚ → Option (List ℚ)
  | 0, n =>
    if n < e ∧ ¬ isclose n e then none else some []
  | fuel + 1, n =>
    if n < e ∧ ¬ isclose n e then
      (frangeLoop step e fuel (n + step)).map (n :: ·)
    else some []

/-- `frange(step, start_or_end=None, end=None, *, inclusive=False)`:
raises `ValueError(step)` when `step` is falsy (zero), modelled by
`Except.error step`; otherwise resolves start and end, optionally yields the
start, runs the stepping loop from `s + step`, and optionally yields the
end.  `Except.ok none` means the loop had not terminated within `fuel`
iterations. -/
def frange (step : ℚ) (start_or_end : Option ℚ := none)
    (end_ : Option ℚ := none) (inclusive : Bool := false) (fuel : ℕ) :
    Except ℚ (Option (List ℚ)) :=
  if step = 0 then .error step
  else
    let se := frangeResolve start_or_end end_
    match frangeLoop step se.2 fuel (se.1 + step) with
    | none => .ok none
    | some mid =>
        .ok (some ((if inclusive then [se.1] else []) ++ mid ++
          (if inclusive then [se.2] else [])))

/-- `frange` terminates on these arguments: some fuel suffices for the loop
to finish and a value list to be produced. -/
def frangeTerminates (step : ℚ) (start_or_end end_ : Option ℚ)
    (inclusive : Bool) : Prop :=
  ∃ fuel l, frange step start_or_end end_ inclusive fuel = .ok (some l)

/-! ### Helper lemmas about the float-modulo model -/

theorem pymod_eq_sub (x p : ℚ) (k : ℤ) (h1 : (k : ℚ) ≤ x / p)
    (h2 : x / p < k + 1) : pymod x p = x - p * k := by
  unfold pymod
  have hfl : ⌊x / p⌋ = k := by
    rw [Int.floor_eq_iff]
    exact ⟨h1, by exact_mod_cast h2⟩
  rw [hfl]

theorem pymod_nonneg (x p : ℚ) (hp : 0 < p) : 0 ≤ pymod x p := by
  unfold pymod
  have h := Int.sub_floor_div_mul_nonneg x hp
  linarith [h]

theorem pymod_lt (x p : ℚ) (hp : 0 < p) : pymod x p < p := by
  unfold pymod
  have h := Int.sub_floor_div_mul_lt x hp
  linarith [h]

theorem pyOr_some_zero_default (s : ℚ) : pyOr (some s) 0 = s := by
  show (if s = 0 then 0 else s) = s
  split_ifs with h
  · exact h.symm
  · rfl

theorem not_isclose_one_of_nonpos (n : ℚ) (hn : n ≤ 0) : ¬ isclose n 1 := by
  unfold isclose
  rw [abs_of_nonpos (by linarith : n - 1 ≤ 0), abs_of_nonpos hn, abs_one]
  intro hcon
  rcases le_total (-n) 1 with h | h
  · rw [max_eq_right h] at hcon
    rcases max_cases (1 / 10 ^ 9 * (1 : ℚ)) 0 with ⟨heq, _⟩ | ⟨heq, _⟩ <;>
      rw [heq] at hcon <;> linarith
  · rw [max_eq_left h] at hcon
    rcases max_cases (1 / 10 ^ 9 * -n) 0 with ⟨heq, _⟩ | ⟨heq, _⟩ <;>
      rw [heq] at hcon <;> nlinarith

theorem frangeLoop_neg_one_diverges :
    ∀ (fuel : ℕ) (n : ℚ), n ≤ 0 → frangeLoop (-1) 1 fuel n = none := by
  intro fuel
  induction fuel with
  | zero =>
    intro n hn
    unfold frangeLoop
    rw [if_pos ⟨by linarith, not_isclose_one_of_nonpos n hn⟩]
  | succ f ih =>
    intro n hn
    unfold frangeLoop
    rw [if_pos ⟨by linarith, not_isclose_one_of_nonpos n hn⟩, ih (n + -1) (by linarith)]
    rfl

theorem frangeLoop_terminates (step e : ℚ) :
    ∀ (fuel : ℕ) (n : ℚ), e ≤ n + fuel * step →
      ∃ l, frangeLoop step e fuel n = some l := by
  intro fuel
  induction fuel with
  | zero =>
    intro n hfuel
    refine ⟨[], ?_⟩
    unfold frangeLoop
    rw [if_neg]
    rintro ⟨hlt, -⟩
    push_cast at hfuel
    linarith
  | succ f ih =>
    intro n hfuel
    by_cases hc : n < e ∧ ¬ isclose n e
    · obtain ⟨l, hl⟩ := ih (n + step) (by push_cast at hfuel ⊢; linarith)
      refine ⟨n :: l, ?_⟩
      unfold frangeLoop
      rw [if_pos hc, hl]
      rfl
    · refine ⟨[], ?_⟩
      unfold frangeLoop
      rw [if_neg hc]

theorem frangeLoop_shape (step e : ℚ) :
    ∀ (fuel : ℕ) (n : ℚ) (l : List ℚ), frangeLoop step e fuel n = some l →
      List.Chain (fun a b => b = a + step) (n - step) l ∧
      ∀ x ∈ l, x < e ∧ ¬ isclose x e := by
  intro fuel
  induction fuel with
  | zero =>
    intro n l hl
    unfold frangeLoop at hl
    split_ifs at hl
    obtain rfl : ([] : List ℚ) = l := Option.some.inj hl
    exact ⟨List.Chain.nil, by simp⟩
  | succ f ih =>
    intro n l hl
    unfold frangeLoop at hl
    split_ifs at hl with hc
    · obtain ⟨l', hl', rfl⟩ := Option.map_eq_some'.mp hl
      obtain ⟨hchain, hmem⟩ := ih (n + step) l' hl'
      rw [add_sub_cancel_right] at hchain
      refine ⟨List.Chain.cons (by ring) hchain, ?_⟩
      intro x hx
      rcases List.mem_cons.mp hx with rfl | hx'
      · exact hc
      · exact hmem x hx'
    · obtain rfl : ([] : List ℚ) = l := Option.some.inj hl
      exact ⟨List.Chain.nil, by simp⟩

/-! ### Claim theorems -/

/-- Claim C1: for every raw `begin`, `end` and positive `period`, the bounds
stored by the `CyclicInterpolationBounds` constructor (reduction modulo
`period` into `[0, period)` followed by the one-period phase shift of
`begin` when the absolute difference exceeds `period / 2`) satisfy
`abs(end - begin) <= period / 2`. -/
theorem cyclic_make_minor_arc (b e p : ℚ) (hp : 0 < p) :
    |(CyclicInterpolationBounds.make b (some e) (some p)).toBounds._end -
      (CyclicInterpolationBounds.make b (some e) (some p)).toBounds._begin| ≤
      p / 2 := by
  have hb0 := pymod_nonneg b p hp
  have hb1 := pymod_lt b p hp
  have he0 := pymod_nonneg e p hp
  have he1 := pymod_lt e p hp
  simp only [CyclicInterpolationBounds.make, Option.getD]
  set b1 := pymod b p with hb
  set e1 := pymod e p with he
  split_ifs with habs hlt
  · have habs2 : |e1 - b1| = e1 - b1 := abs_of_pos (by linarith)
    rw [habs2] at habs
    rw [abs_le]
    constructor <;> linarith
  · have habs2 : |e1 - b1| = b1 - e1 := by
      rw [abs_sub_comm]
      exact abs_of_nonneg (by linarith [le_of_not_lt hlt])
    rw [habs2] at habs
    rw [abs_le]
    constructor <;> linarith
  · exact le_of_not_lt habs

/-- Claim C1, witness: the minor-arc invariant instantiated at the concrete
construction `CyclicInterpolationBounds(350, 10, 360)`. -/
theorem cyclic_make_minor_arc_witness :
    (0 : ℚ) < 360 ∧
    |(CyclicInterpolationBounds.make 350 (some 10) (some 360)).toBounds._end -
      (CyclicInterpolationBounds.make 350 (some 10) (some 360)).toBounds._begin| ≤
      (360 : ℚ) / 2 :=
  ⟨by norm_num, cyclic_make_minor_arc 350 10 360 (by norm_num)⟩

/-- Claim C2: with the full-circle period of 360 degrees,
`interpolate_angle(0.5, angle_1=350, angle_2=10)` returns `0.0`, the midpoint
of the 20-degree minor arc from 350 to 370 = 10, not 180. -/
theorem interpolate_angle_midpoint_350_10 :
    interpolate_angle (1 / 2) 350 (some 10) = 0 := by
  have h1 : pymod 350 360 = 350 := by
    rw [pymod_eq_sub 350 360 0 (by norm_num) (by norm_num)]; norm_num
  have h2 : pymod 10 360 = 10 := by
    rw [pymod_eq_sub 10 360 0 (by norm_num) (by norm_num)]; norm_num
  simp only [interpolate_angle, CyclicInterpolationBounds.make,
    CyclicInterpolationBounds.interpolate, InterpolationBounds.interpolate,
    InterpolationBounds._span, FULL_CIRCLE, Option.getD] at *
  rw [h1, h2]
  norm_num
  rw [pymod_eq_sub 0 360 0 (by norm_num) (by norm_num)]
  norm_num

/-- Claim C3: for distinct endpoints `a`, `b` and any fraction `f` in
`[0, 1]`, `inverse_interpolate(interpolate(f, begin=a, end=b), begin=a,
end=b)` recovers `f` exactly; the default `inside=True` clamping is a no-op
since the recovered fraction lies in `[0, 1]`. -/
theorem round_trip (a b f : ℚ) (hab : a ≠ b) (h0 : 0 ≤ f) (h1 : f ≤ 1) :
    inverse_interpolate (interpolate f a b) a b true = f := by
  unfold inverse_interpolate interpolate InterpolationBounds.inverse_interpolate
    InterpolationBounds.interpolate InterpolationBounds._span trim
  have hspan : b - a ≠ 0 := sub_ne_zero.mpr (Ne.symm hab)
  simp only [hspan, if_false, if_true]
  have hdiv : (a + (b - a) * f - a) / (b - a) = f := by
    field_simp
  rw [hdiv]
  rw [max_eq_right h0, min_eq_left h1]

/-- Claim C3, witness: the round trip at `a = 0`, `b = 2`, `f = 1/2`. -/
theorem round_trip_witness :
    (0 : ℚ) ≠ 2 ∧ (0 : ℚ) ≤ 1 / 2 ∧ (1 / 2 : ℚ) ≤ 1 ∧
    inverse_interpolate (interpolate (1 / 2) 0 2) 0 2 true = 1 / 2 :=
  ⟨by norm_num, by norm_num, by norm_num,
    round_trip 0 2 (1 / 2) (by norm_num) (by norm_num) (by norm_num)⟩

/-- Claim C4: on a zero-span bounds (`end` equal to `begin`),
`inverse_interpolate` returns `0.0` without a division fault, for both
`inside=True` and `inside=False`. -/
theorem zero_span_inverse (bnds : InterpolationBounds) (n : ℚ) (inside : Bool)
    (h : bnds._span = 0) : bnds.inverse_interpolate n inside = 0 := by
  unfold InterpolationBounds.inverse_interpolate
  rw [if_pos h]

/-- Claim C4, witness: zero-span fallback on `InterpolationBounds(5, 5)`
queried at `n = 3` with `inside=False`. -/
theorem zero_span_inverse_witness :
    (InterpolationBounds.mk 5 5)._span = 0 ∧
    (InterpolationBounds.mk 5 5).inverse_interpolate 3 false = 0 :=
  ⟨by norm_num [InterpolationBounds._span],
    zero_span_inverse (InterpolationBounds.mk 5 5) 3 false
      (by norm_num [InterpolationBounds._span])⟩

/-- Claim C5: for every choice of `start_or_end`, `end` and `inclusive`,
`frange` with `step == 0` fails with `ValueError(step)` (modelled by
`Except.error 0`) before yielding any value. -/
theorem frange_zero_step (soe e_ : Option ℚ) (inclusive : Bool) (fuel : ℕ) :
    frange 0 soe e_ inclusive fuel = Except.error 0 := by
  unfold frange
  rw [if_pos rfl]

/-- Claim C6, counterexample: the step `-1` is nonzero, yet
`frange(-1, 0, 1)` never terminates (the loop variable moves away from the
end bound), so it does not produce a finite sequence as claimed. -/
theorem frange_neg_step_diverges :
    (-1 : ℚ) ≠ 0 ∧ ¬ frangeTerminates (-1) (some 0) (some 1) false := by
  refine ⟨by norm_num, ?_⟩
  rintro ⟨fuel, l, hl⟩
  unfold frange at hl
  rw [if_neg (by norm_num : ¬ (-1 : ℚ) = 0)] at hl
  simp only [frangeResolve, pyOr_some_zero_default] at hl
  rw [frangeLoop_neg_one_diverges fuel (0 + -1) (by norm_num)] at hl
  simp at hl

/-- Claim C6, amended: for every positive `step` and every resolved start
and end, `frange` produces a finite sequence — with enough fuel the loop
returns a list whose strictly-between values increase by exactly `step`
from the start and all stay below the end (excluded up to the
approximate-equality tolerance), bracketed by the start and end values when
`inclusive` is true. -/
theorem frange_pos_step_finite (step s e : ℚ) (inclusive : Bool)
    (hstep : 0 < step) :
    ∃ (fuel : ℕ) (mid : List ℚ),
      frange step (some s) (some e) inclusive fuel =
        .ok (some ((if inclusive then [s] else []) ++ mid ++
          (if inclusive then [e] else []))) ∧
      List.Chain (fun a b => b = a + step) s mid ∧
      ∀ x ∈ mid, x < e ∧ ¬ isclose x e := by
  set fuel := (⌈(e - s - step) / step⌉).toNat with hfuel
  have hfuel_big : e ≤ (s + step) + fuel * step := by
    have h1 : ((e - s - step) / step : ℚ) ≤ (⌈(e - s - step) / step⌉ : ℚ) :=
      Int.le_ceil _
    have h2 : ((⌈(e - s - step) / step⌉ : ℤ) : ℚ) ≤ (fuel : ℚ) := by
      rw [hfuel]
      exact_mod_cast Int.self_le_toNat _
    have h3 : (e - s - step) / step ≤ (fuel : ℚ) := le_trans h1 h2
    have h4 : (e - s - step) / step * step ≤ (fuel : ℚ) * step :=
      mul_le_mul_of_nonneg_right h3 (le_of_lt hstep)
    rw [div_mul_cancel₀ _ (ne_of_gt hstep)] at h4
    linarith
  obtain ⟨l, hl⟩ := frangeLoop_terminates step e fuel (s + step) hfuel_big
  obtain ⟨hchain, hmem⟩ := frangeLoop_shape step e fuel (s + step) l hl
  rw [add_sub_cancel_right] at hchain
  refine ⟨fuel, l, ?_, hchain, hmem⟩
  unfold frange
  rw [if_neg (ne_of_gt hstep)]
  simp only [frangeResolve, pyOr_some_zero_default, hl]

/-- Claim C6, witness: the amended statement instantiated at `step = 1`,
start `0`, end `1`, `inclusive = false`. -/
theorem frange_pos_step_finite_witness :
    (0 : ℚ) < 1 ∧
    ∃ (fuel : ℕ) (mid : List ℚ),
      frange 1 (some 0) (some 1) false fuel =
        .ok (some ((if false then [(0 : ℚ)] else []) ++ mid ++
          (if false then [(1 : ℚ)] else []))) ∧
      List.Chain (fun a b => b = a + 1) 0 mid ∧
      ∀ x ∈ mid, x < 1 ∧ ¬ isclose x 1 :=
  ⟨by norm_num, frange_pos_step_finite 1 0 1 false (by norm_num)⟩

/-- Claim C7, counterexample: `compare(3, 5)` evaluates to `1`, not `-1` as
claimed — the code `(v1 < v2) - (v1 > v2)` returns `1` when the first
argument is smaller. -/
theorem compare_3_5_cex : compare 3 5 ≠ -1 ∧ compare 3 5 = 1 := by decide

/-- Claim C7, amended: `compare` is a three-way comparator returning `1`
when the first argument is smaller, `-1` when it is larger, and `0` when
equal; in particular `compare(3, 5) == 1`, `compare(5, 3) == -1`, and
`compare(4, 4) == 0`. -/
theorem compare_trichotomy :
    (∀ v1 v2 : ℤ, (compare v1 v2 = 1 ↔ v1 < v2) ∧
      (compare v1 v2 = -1 ↔ v2 < v1) ∧ (compare v1 v2 = 0 ↔ v1 = v2)) ∧
    compare 3 5 = 1 ∧ compare 5 3 = -1 ∧ compare 4 4 = 0 := by
  refine ⟨fun v1 v2 => ?_, by decide, by decide, by decide⟩
  unfold compare
  rcases lt_trichotomy v1 v2 with h | h | h
  · simp [h, not_lt.mpr (le_of_lt h), ne_of_lt h]
  · simp [h]
  · simp [not_lt.mpr (le_of_lt h), h, (ne_of_lt h).symm]

/-- Claim C8, counterexample: `mods(5, 5, shift=1)` evaluates to `5`, not
`1` as claimed — `(5 - 1) mod 5 + 1 = 4 + 1 = 5`. -/
theorem mods_5_5_1_cex : mods 5 5 1 ≠ 1 ∧ mods 5 5 1 = 5 := by decide

/-- Claim C8, amended: `mods(x, y, shift)` returns `(x - shift) mod y +
shift` — for positive `y`, the unique representative of `x` modulo `y` in
`[shift, shift + y)`; in particular `mods(-1, 5) == 4` and
`mods(5, 5, shift=1) == 5`. -/
theorem mods_characterization :
    (∀ x y s : ℤ, 0 < y →
      mods x y s ≡ x [ZMOD y] ∧ s ≤ mods x y s ∧ mods x y s < s + y) ∧
    mods (-1) 5 0 = 4 ∧ mods 5 5 1 = 5 := by
  refine ⟨fun x y s hy => ?_, by decide, by decide⟩
  unfold mods
  have hfm : (x - s).fmod y = (x - s) % y := Int.fmod_eq_emod _ (le_of_lt hy)
  refine ⟨?_, ?_, ?_⟩
  · rw [hfm]
    have h1 : (x - s) % y ≡ x - s [ZMOD y] := Int.emod_emod_of_dvd _ dvd_rfl
    have h2 := h1.add_right s
    rwa [sub_add_cancel] at h2
  · rw [hfm]
    have := Int.emod_nonneg (x - s) (ne_of_gt hy)
    linarith
  · rw [hfm]
    have := Int.emod_lt_of_pos (x - s) hy
    linarith

/-- Claim C8, witness: the modulo characterization instantiated at
`mods(7, 3, shift=2)`. -/
theorem mods_characterization_witness :
    (0 : ℤ) < 3 ∧
    (mods 7 3 2 ≡ 7 [ZMOD 3] ∧ 2 ≤ mods 7 3 2 ∧ mods 7 3 2 < 2 + 3) :=
  ⟨by decide, mods_characterization.1 7 3 2 (by decide)⟩

/-- Claim C9: `solve_quadratic` returns an ordered pair (smaller, larger)
whenever `a` is nonzero — in particular it does not fault on a negative
discriminant, where the real part of the complex square root is zero — and
`solve_quadratic(20.6, -10.3, 8.7)` returns exactly `(0.25, 0.25)` even
though its discriminant is negative. -/
theorem solve_quadratic_ordered_total :
    (∀ a b c : ℚ, a ≠ 0 →
      ∃ pr, solve_quadratic a b c = some pr ∧ pr.1 ≤ pr.2) ∧
    ((-103 / 10 : ℚ) ^ 2 - 4 * (103 / 5) * (87 / 10) < 0) ∧
    solve_quadratic (103 / 5) (-103 / 10) (87 / 10) = some (1 / 4, 1 / 4) := by
  refine ⟨fun a b c ha => ?_, by norm_num, ?_⟩
  · unfold solve_quadratic
    rw [if_neg ha]
    exact ⟨_, rfl, min_le_max⟩
  · unfold solve_quadratic cmathSqrtReal
    norm_num

/-- Claim C9, witness: the no-fault ordered result instantiated at
`solve_quadratic(1, 0, -1)`. -/
theorem solve_quadratic_ordered_total_witness :
    (1 : ℚ) ≠ 0 ∧
    ∃ pr, solve_quadratic 1 0 (-1) = some pr ∧ pr.1 ≤ pr.2 :=
  ⟨by norm_num, solve_quadratic_ordered_total.1 1 0 (-1) (by norm_num)⟩

/-- Claim C10: an explicit `start_or_end` of `0` is falsy in Python, so with
`end` omitted `frange` behaves exactly as if the argument were omitted — the
range resolves to `(0, 1)`, not the empty `(0, 0)`; with `end` given, an
explicit `start_or_end` of `0` resolves to start `0`. -/
theorem frange_falsy_zero_start :
    (∀ (step : ℚ) (incl : Bool) (fuel : ℕ),
      frange step (some 0) none incl fuel = frange step none none incl fuel) ∧
    frangeResolve (some 0) none = (0, 1) ∧ frangeResolve none none = (0, 1) ∧
    (∀ e : ℚ, frangeResolve (some 0) (some e) = (0, e)) := by
  refine ⟨fun step incl fuel => ?_, by simp [frangeResolve, pyOr],
    by simp [frangeResolve, pyOr], fun e => ?_⟩
  · simp [frange, frangeResolve, pyOr]
  · simp [frangeResolve, pyOr]

end Calx
